import Mathlib

/-!
Verification development for the zipzap archive extraction tool
(source: src/zipzap.py).

The development shallowly embeds the pure control flow of the program:
the progress ledger (class ProgressTracker), the archive analyzer
(analyze_zip_files), the archive extractor (extract_zip,
extract_zip_worker, extract_single_file_from_zip) and the batch
scheduler (scan_directory, _scan_directory_sequential,
_scan_directory_hybrid).  Filesystem and zip-library effects are
modelled by explicit per-archive event parameters (whether the archive
opens, which entry writes succeed, whether the final unlink succeeds);
machine integers are Nat with explicit reduction modulo 2^32 where the
source's hash arithmetic wraps.
-/

namespace ZipZap

/-! ### MD5 (hashlib.md5), used by ProgressTracker.get_file_hash

The ledger's identity hash is hashlib.md5(str(file_path).encode()).hexdigest().
This is a faithful executable embedding of MD5 (RFC 1321): padding, 64-round
compression on 32-bit words (Nat reduced mod 2^32), little-endian digest,
lower-case hex encoding of the UTF-8 bytes of the path string. -/

/-- Reduction modulo 2^32; all MD5 word arithmetic wraps at 32 bits. -/
def m32 (x : Nat) : Nat := x % 4294967296

/-- 32-bit left rotation (operand already reduced mod 2^32). -/
def rotl32 (x n : Nat) : Nat := (m32 (x <<< n)) ||| (x >>> (32 - n))

/-- Bitwise complement within 32 bits. -/
def not32 (x : Nat) : Nat := x ^^^ 4294967295

/-- MD5 auxiliary function F (round 1). -/
def md5F (b c d : Nat) : Nat := (b &&& c) ||| ((not32 b) &&& d)

/-- MD5 auxiliary function G (round 2). -/
def md5G (b c d : Nat) : Nat := (d &&& b) ||| ((not32 d) &&& c)

/-- MD5 auxiliary function H (round 3). -/
def md5H (b c d : Nat) : Nat := b ^^^ c ^^^ d

/-- MD5 auxiliary function I (round 4). -/
def md5I (b c d : Nat) : Nat := c ^^^ (b ||| (not32 d))

/-- MD5 per-operation sine-derived constants K, RFC 1321 section 3.4. -/
def md5K : List Nat :=
  [0xd76aa478, 0xe8c7b756, 0x242070db, 0xc1bdceee,
   0xf57c0faf, 0x4787c62a, 0xa8304613, 0xfd469501,
   0x698098d8, 0x8b44f7af, 0xffff5bb1, 0x895cd7be,
   0x6b901122, 0xfd987193, 0xa679438e, 0x49b40821,
   0xf61e2562, 0xc040b340, 0x265e5a51, 0xe9b6c7aa,
   0xd62f105d, 0x02441453, 0xd8a1e681, 0xe7d3fbc8,
   0x21e1cde6, 0xc33707d6, 0xf4d50d87, 0x455a14ed,
   0xa9e3e905, 0xfcefa3f8, 0x676f02d9, 0x8d2a4c8a,
   0xfffa3942, 0x8771f681, 0x6d9d6122, 0xfde5380c,
   0xa4beea44, 0x4bdecfa9, 0xf6bb4b60, 0xbebfbc70,
   0x289b7ec6, 0xeaa127fa, 0xd4ef3085, 0x04881d05,
   0xd9d4d039, 0xe6db99e5, 0x1fa27cf8, 0xc4ac5665,
   0xf4292244, 0x432aff97, 0xab9423a7, 0xfc93a039,
   0x655b59c3, 0x8f0ccc92, 0xffeff47d, 0x85845dd1,
   0x6fa87e4f, 0xfe2ce6e0, 0xa3014314, 0x4e0811a1,
   0xf7537e82, 0xbd3af235, 0x2ad7d2bb, 0xeb86d391]

/-- MD5 per-operation left-rotation amounts. -/
def md5S : List Nat :=
  [7, 12, 17, 22, 7, 12, 17, 22, 7, 12, 17, 22, 7, 12, 17, 22,
   5, 9, 14, 20, 5, 9, 14, 20, 5, 9, 14, 20, 5, 9, 14, 20,
   4, 11, 16, 23, 4, 11, 16, 23, 4, 11, 16, 23, 4, 11, 16, 23,
   6, 10, 15, 21, 6, 10, 15, 21, 6, 10, 15, 21, 6, 10, 15, 21]

/-- The four 32-bit words of the MD5 internal state. -/
structure MD5State where
  a : Nat
  b : Nat
  c : Nat
  d : Nat
deriving DecidableEq, Repr

/-- One of the 64 MD5 operations: operation index i selects the auxiliary
function, message-word index and rotation amount, then the state rotates. -/
def md5Step (m : List Nat) (st : MD5State) (i : Nat) : MD5State :=
  let f :=
    if i < 16 then md5F st.b st.c st.d
    else if i < 32 then md5G st.b st.c st.d
    else if i < 48 then md5H st.b st.c st.d
    else md5I st.b st.c st.d
  let g :=
    if i < 16 then i % 16
    else if i < 32 then (5 * i + 1) % 16
    else if i < 48 then (3 * i + 5) % 16
    else (7 * i) % 16
  let x := m32 (st.a + f + md5K.getD i 0 + m.getD g 0)
  ⟨st.d, m32 (st.b + rotl32 x (md5S.getD i 0)), st.b, st.c⟩

/-- Decode a 64-byte block into 16 little-endian 32-bit words. -/
def blockWords (block : List Nat) : List Nat :=
  (List.range 16).map fun j =>
    block.getD (4 * j) 0 + 256 * block.getD (4 * j + 1) 0 +
      65536 * block.getD (4 * j + 2) 0 + 16777216 * block.getD (4 * j + 3) 0

/-- Process one 64-byte block: 64 operations, then add into the state mod 2^32. -/
def md5Compress (st : MD5State) (block : List Nat) : MD5State :=
  let m := blockWords block
  let r := (List.range 64).foldl (md5Step m) st
  ⟨m32 (st.a + r.a), m32 (st.b + r.b), m32 (st.c + r.c), m32 (st.d + r.d)⟩

/-- The 8 little-endian bytes of the 64-bit message bit length. -/
def lenBytes (n : Nat) : List Nat :=
  (List.range 8).map fun i => (n >>> (8 * i)) % 256

/-- MD5 padding: a 0x80 byte, zero bytes to 56 mod 64, then the bit length. -/
def md5Pad (msg : List Nat) : List Nat :=
  msg ++ [128] ++ List.replicate ((119 - msg.length % 64) % 64) 0 ++
    lenBytes (8 * msg.length)

/-- The 64-byte blocks of a padded message. -/
def md5Blocks (padded : List Nat) : List (List Nat) :=
  (List.range (padded.length / 64)).map fun i => (padded.drop (64 * i)).take 64

/-- MD5 of a byte sequence: initial state folded over the padded blocks. -/
def md5Bytes (msg : List Nat) : MD5State :=
  (md5Blocks (md5Pad msg)).foldl md5Compress
    ⟨0x67452301, 0xefcdab89, 0x98badcfe, 0x10325476⟩

/-- UTF-8 encoding of one character. -/
def utf8Char (c : Char) : List Nat :=
  let n := c.toNat
  if n < 0x80 then [n]
  else if n < 0x800 then
    [0xC0 ||| (n >>> 6), 0x80 ||| (n &&& 0x3F)]
  else if n < 0x10000 then
    [0xE0 ||| (n >>> 12), 0x80 ||| ((n >>> 6) &&& 0x3F), 0x80 ||| (n &&& 0x3F)]
  else
    [0xF0 ||| (n >>> 18), 0x80 ||| ((n >>> 12) &&& 0x3F),
     0x80 ||| ((n >>> 6) &&& 0x3F), 0x80 ||| (n &&& 0x3F)]

/-- UTF-8 bytes of a string (str.encode() in the source). -/
def utf8Bytes (s : String) : List Nat :=
  (s.data.map utf8Char).flatten

/-- Lower-case hexadecimal digit for a value below 16. -/
def hexDigit (n : Nat) : Char :=
  if n < 10 then Char.ofNat (48 + n) else Char.ofNat (87 + n)

/-- Two lower-case hex characters of one byte. -/
def byteHex (b : Nat) : List Char := [hexDigit (b / 16), hexDigit (b % 16)]

/-- The four little-endian bytes of a 32-bit word. -/
def wordLEBytes (w : Nat) : List Nat :=
  [w % 256, (w >>> 8) % 256, (w >>> 16) % 256, (w >>> 24) % 256]

/-- The 16 digest bytes of a final MD5 state (a, b, c, d little-endian). -/
def md5DigestBytes (st : MD5State) : List Nat :=
  wordLEBytes st.a ++ wordLEBytes st.b ++ wordLEBytes st.c ++ wordLEBytes st.d

/-- Lower-case hex string of a byte list. -/
def hexOfBytes (bs : List Nat) : String :=
  String.mk ((bs.map byteHex).flatten)

/-- hashlib.md5(s.encode()).hexdigest(). -/
def md5Hex (s : String) : String :=
  hexOfBytes (md5DigestBytes (md5Bytes (utf8Bytes s)))

/-! ### Progress ledger (class ProgressTracker)

The in-memory state is the set processed_files of identity hashes plus the
pending_saves buffer (zipzap.py lines 22-66).  Python set membership is
modelled by list membership; the elements are the md5 hex digests of path
strings. -/

/-- In-memory state of a ProgressTracker: the processed_files set and the
pending_saves buffer (both sets of identity-hash strings). -/
structure TrackerState where
  processed_files : List String
  pending_saves : List String
deriving DecidableEq, Repr

/-- ProgressTracker.get_file_hash: md5 hex digest of str(file_path). -/
def get_file_hash (file_path : String) : String := md5Hex file_path

/-- ProgressTracker.is_processed: membership of the identity hash in the
processed_files set. -/
def is_processed (t : TrackerState) (file_path : String) : Bool :=
  decide (get_file_hash file_path ∈ t.processed_files)

/-- ProgressTracker.mark_processed: add the identity hash to processed_files
and to pending_saves. -/
def mark_processed (t : TrackerState) (file_path : String) : TrackerState :=
  { processed_files := get_file_hash file_path :: t.processed_files,
    pending_saves := get_file_hash file_path :: t.pending_saves }

/-- ProgressTracker.batch_save_progress: if pending_saves is non-empty,
persist (save_progress writes processed_files) and clear the buffer. -/
def batch_save_progress (t : TrackerState) : TrackerState :=
  if t.pending_saves.isEmpty then t
  else { processed_files := t.processed_files, pending_saves := [] }

/-! ### ProgressTracker.load_progress over persisted ledger content

The persisted file is read with json.load inside
try/except (json.JSONDecodeError, FileNotFoundError).  The possible shapes
of the file are modelled explicitly; json values by an inductive type.
Python exceptions that escape load_progress are modelled as errors of an
Except result. -/

/-- A parsed JSON value (result of json.load when it succeeds). -/
inductive Json where
  | null : Json
  | bool : Bool → Json
  | num : Int → Json
  | str : String → Json
  | arr : List Json → Json
  | obj : List (String × Json) → Json

/-- Content state of the persisted ledger file as load_progress sees it. -/
inductive LedgerFile where
  /-- Path(progress_file).exists() is false: the initial empty set is kept. -/
  | missing : LedgerFile
  /-- The file exists but open or read raises an OSError subclass other
  than FileNotFoundError (e.g. PermissionError). -/
  | unreadable : LedgerFile
  /-- The file reads but json.load raises json.JSONDecodeError. -/
  | unparseable : LedgerFile
  /-- json.load returns the value v. -/
  | parsed : Json → LedgerFile

/-- Python exception classes that can escape load_progress. -/
inductive PyError where
  | attributeError : PyError
  | typeError : PyError
  | osError : PyError
deriving DecidableEq, Repr

/-- True for json values that are hashable in Python (may be a set element). -/
def Json.hashable : Json → Bool
  | .arr _ => false
  | .obj _ => false
  | _ => true

/-- dict.get(key, default) on a parsed JSON object; for duplicate keys
json.load keeps the last occurrence, hence the reversed lookup. -/
def jsonGet (fields : List (String × Json)) (key : String) (default : Json) :
    Json :=
  match fields.reverse.lookup key with
  | some v => v
  | none => default

/-- ProgressTracker.load_progress (zipzap.py lines 29-36), modelling the set
assigned to processed_files as the list of json elements it is built from, or
the Python exception that escapes to the caller.  Only JSONDecodeError and
FileNotFoundError are caught: other read errors propagate, a parsed non-dict
value raises AttributeError at data.get, and a processed_files value that is
not an iterable of hashables raises TypeError at set(...). -/
def load_progress (f : LedgerFile) : Except PyError (List Json) :=
  match f with
  | .missing => .ok []
  | .unreadable => .error .osError
  | .unparseable => .ok []
  | .parsed v =>
    match v with
    | .obj fields =>
      match jsonGet fields "processed_files" (.arr []) with
      | .arr xs => if xs.all Json.hashable then .ok xs else .error .typeError
      | .str s => .ok (s.data.map fun c => .str (String.mk [c]))
      | _ => .error .typeError
    | _ => .error .attributeError

/-! ### Filesystem path model

Paths are lists of name segments of an absolute path.  Joining a pathlib
path with an archive entry name appends the name's slash-separated segments
(pathlib drops empty and single-dot segments but keeps double-dot segments);
the operating system resolves double-dot segments at file-access time, which
resolvePath models. -/

/-- Split a character list at slashes (the semantics of splitting a relative
path string on "/"), structurally recursive so that proofs can evaluate it. -/
def splitSlashAux : List Char → List Char → List (List Char)
  | [], acc => [acc.reverse]
  | c :: rest, acc =>
    if c = '/' then acc.reverse :: splitSlashAux rest []
    else splitSlashAux rest (c :: acc)

/-- Segments contributed by an archive entry name when joined to a path. -/
def splitRel (name : String) : List String :=
  ((splitSlashAux name.data []).map String.mk).filter fun s =>
    s ≠ "" && s ≠ "."

/-- Resolve parent-directory segments the way the filesystem does: a
double-dot segment removes the previous segment (at the root it is a no-op). -/
def resolvePath (p : List String) : List String :=
  p.foldl (fun acc seg => if seg = ".." then acc.dropLast else acc ++ [seg]) []

/-- Whether target, after resolution, lies inside (or at) base. -/
def isWithin (base target : List String) : Bool :=
  (resolvePath base).isPrefixOf (resolvePath target)

/-! ### Archives and the events of extracting them

An Archive bundles the location of one zip file with the outcome of every
external effect its extraction can perform: whether zipfile.ZipFile opens it,
its entry list (infolist()), which entry writes raise an I/O error, whether
the final unlink succeeds, and its stat().st_size.  These are the inputs the
Python functions consume through the filesystem and the zip library. -/

/-- One entry record of a zip archive (name and directory-marker flag). -/
structure Member where
  filename : String
  isDir : Bool
deriving DecidableEq, Repr

/-- One candidate archive together with the outcomes of the external
effects touching it. -/
structure Archive where
  /-- Segments of the parent directory of the zip file. -/
  parent : List String
  /-- File name of the zip without its final suffix (Path.stem). -/
  stem : String
  /-- Whether zipfile.ZipFile(path) succeeds (false models BadZipFile or
  any other open-time error). -/
  openOk : Bool
  /-- zip_ref.infolist(). -/
  members : List Member
  /-- Entry names whose write to disk raises an I/O error. -/
  failWrites : List String
  /-- Whether zip_path.unlink() succeeds. -/
  unlinkOk : Bool
  /-- zip_path.stat().st_size. -/
  sizeBytes : Nat
deriving DecidableEq, Repr

/-- Segments of the zip file itself: parent / (stem + ".zip"). -/
def Archive.zipPath (a : Archive) : List String :=
  a.parent ++ [a.stem ++ ".zip"]

/-- extract_dir = zip_path.parent / zip_name (zipzap.py lines 101, 154). -/
def Archive.extractDir (a : Archive) : List String :=
  a.parent ++ [a.stem]

/-- str(zip_path): the absolute path string, the ledger identity key. -/
def Archive.pathStr (a : Archive) : String :=
  "/" ++ String.intercalate "/" a.zipPath

/-- Whether writing the entry named n succeeds. -/
def Archive.writeOk (a : Archive) (n : String) : Bool :=
  !(a.failWrites.contains n)

/-- The non-directory entries, as filtered by every extraction path. -/
def nonDirMembers (a : Archive) : List Member :=
  a.members.filter fun m => !m.isDir

/-- Whether every non-directory entry of the archive writes successfully. -/
def allWritesOk (a : Archive) : Bool :=
  (nonDirMembers a).all fun m => a.writeOk m.filename

/-- Whether an actual extraction attempt of this archive runs to a Success
outcome: the archive opens, every non-directory entry writes, and the
final deletion of the zip file succeeds. -/
def extractionCompletes (a : Archive) : Bool :=
  a.openOk && allWritesOk a && a.unlinkOk

/-- Target path of one entry: extract_dir / member.filename — computed with
no containment check in the source (zipzap.py lines 84, 132, 174). -/
def entryTarget (a : Archive) (filename : String) : List String :=
  a.extractDir ++ splitRel filename

/-- The sequential entry loop shared by extract_zip and the small-zip branch
of extract_zip_worker: stream each entry to its target, aborting at the
first write error.  Returns whether all writes succeeded and the list of
target paths at which a write was attempted. -/
def writeEntries (a : Archive) : List Member → Bool × List (List String)
  | [] => (true, [])
  | m :: rest =>
    if a.writeOk m.filename then
      let r := writeEntries a rest
      (r.1, entryTarget a m.filename :: r.2)
    else (false, [entryTarget a m.filename])

/-- Result of extract_zip: the returned boolean, the target paths written,
whether the zip file was deleted, and the tracker state after the call. -/
structure ExtractResult where
  ok : Bool
  written : List (List String)
  deleted : Bool
  tracker : TrackerState
deriving Repr

/-- extract_zip (zipzap.py lines 150-200): skip if already processed;
otherwise stream every non-directory entry to extract_dir / filename,
delete the zip file, and mark the archive processed.  Any raised error
(open, entry write, unlink) yields False with no mark. -/
def extract_zip (a : Archive) (t : TrackerState) : ExtractResult :=
  if is_processed t a.pathStr then ⟨true, [], false, t⟩
  else if !a.openOk then ⟨false, [], false, t⟩
  else
    let w := writeEntries a (nonDirMembers a)
    if w.1 then
      if a.unlinkOk then ⟨true, w.2, true, mark_processed t a.pathStr⟩
      else ⟨false, w.2, false, t⟩
    else ⟨false, w.2, false, t⟩

/-- extract_single_file_from_zip (zipzap.py lines 78-95): one intra-zip
task; computes extract_dir / filename with no containment check and writes
the entry there, returning (success, filename, error). -/
def extract_single_file_from_zip (a : Archive) (filename : String) :
    Bool × String × Option String :=
  if a.openOk && a.writeOk filename then (true, filename, none)
  else (false, filename, some "error")

/-- Result of extract_zip_worker: the (success, path, error) triple of the
source plus whether the zip file was deleted. -/
structure WorkerResult where
  success : Bool
  path : String
  error : Option String
  deleted : Bool
deriving Repr

/-- extract_zip_worker (zipzap.py lines 97-148): extract one archive in a
pool worker.  With more than 20 non-directory entries and more than one
intra-zip worker the entries are dispatched to a thread pool (every entry is
attempted, failures collected); otherwise they are streamed sequentially.
Only after all entries are written is the zip file unlinked; an unlink
error is caught and reported as failure. -/
def extract_zip_worker (a : Archive) (intra_zip_workers : Nat) : WorkerResult :=
  if !a.openOk then ⟨false, a.pathStr, some "Bad zip file", false⟩
  else
    let members := nonDirMembers a
    if members.length > 20 && intra_zip_workers > 1 then
      let failed := members.filter fun m => !(a.writeOk m.filename)
      if !failed.isEmpty then
        ⟨false, a.pathStr, some "Failed to extract files", false⟩
      else if a.unlinkOk then ⟨true, a.pathStr, none, true⟩
      else ⟨false, a.pathStr, some "Permission denied", false⟩
    else
      if (writeEntries a members).1 then
        if a.unlinkOk then ⟨true, a.pathStr, none, true⟩
        else ⟨false, a.pathStr, some "Permission denied", false⟩
      else ⟨false, a.pathStr, some "write error", false⟩

/-! ### Archive analyzer (analyze_zip_files)

The analyzer opens each archive only for its metadata; any error yields the
degraded profile {file_count: 1, size: 0}.  The source stores
size_mb = st_size / (1024*1024) as a Python float and later compares
size_mb > 10; since st_size / 2^20 is a dyadic rational with numerator
st_size, the comparison is exact for st_size < 2^53 and, for larger sizes,
the rounded quotient still exceeds 10 by a huge margin, so
size_mb > 10 holds exactly when size_bytes > 10 * 1024 * 1024.  The profile
therefore records size_bytes and the classifier compares bytes. -/

/-- One element of the file_analysis list: {path, file_count, size}. -/
structure FileAnalysis where
  archive : Archive
  file_count : Nat
  size_bytes : Nat
deriving DecidableEq, Repr

/-- analyze_zip_files (zipzap.py lines 202-225): count non-directory
entries and read the size, or the degraded profile on any error. -/
def analyze_zip_files (zip_files : List Archive) : List FileAnalysis :=
  zip_files.map fun z =>
    if z.openOk then
      ⟨z, (nonDirMembers z).length, z.sizeBytes⟩
    else
      ⟨z, 1, 0⟩

/-- The classification test of zipzap.py line 264:
f.file_count > 20 and f.size_mb > 10 (the latter compared in bytes, see
above). -/
def isLargeZip (f : FileAnalysis) : Bool :=
  f.file_count > 20 && f.size_bytes > 10 * 1024 * 1024

/-! ### Batch scheduler

Cancellation is a threading.Event set externally; the loops read it at
successive check points, modelled by a function from the check-point index
(the number of items handled so far in the current loop) to the flag value
read there.  The pool-level environment of the hybrid path is a single
boolean: whether the ProcessPoolExecutor block runs without a systemic
error (false models the except branch of zipzap.py lines 355-359). -/

/-- The loop of _scan_directory_sequential (zipzap.py lines 277-290):
check the cancellation flag before each item, extract, count, and batch-save
every 10 processed items. -/
def seqLoop (stop : Nat → Bool) :
    List Archive → Nat → TrackerState → Nat × Nat × TrackerState
  | [], _, t => (0, 0, t)
  | f :: rest, i, t =>
    if stop i then (0, 0, t)
    else
      let e := extract_zip f t
      let t2 := if (i + 1) % 10 == 0 then batch_save_progress e.tracker
                else e.tracker
      let r := seqLoop stop rest (i + 1) t2
      ((if e.ok then 1 else 0) + r.1, 1 + r.2.1, r.2.2)

/-- _scan_directory_sequential (zipzap.py lines 272-296): the loop followed
by the final batch_save_progress. -/
def _scan_directory_sequential (zip_files : List Archive) (t : TrackerState)
    (stop : Nat → Bool) : Nat × Nat × TrackerState :=
  let r := seqLoop stop zip_files 0 t
  (r.1, r.2.1, batch_save_progress r.2.2)

/-- The job list the hybrid strategy submits to the process pool
(zipzap.py lines 318-326): every large zip with intra_zip_workers internal
streams, then every small zip with exactly 1. -/
def hybridJobs (large_zips small_zips : List FileAnalysis)
    (intra_zip_workers : Nat) : List (Archive × Nat) :=
  large_zips.map (fun z => (z.archive, intra_zip_workers)) ++
    small_zips.map (fun z => (z.archive, 1))

/-- The result-consumption loop of _scan_directory_hybrid (zipzap.py lines
328-353): check the cancellation flag before consuming each result, count
it, mark the ledger on success only, and batch-save every 5 results. -/
def hybridLoop (stop : Nat → Bool) :
    List (Archive × Nat) → Nat → TrackerState → Nat × Nat × TrackerState
  | [], _, t => (0, 0, t)
  | job :: rest, i, t =>
    if stop i then (0, 0, t)
    else
      let w := extract_zip_worker job.1 job.2
      let t1 := if w.success then mark_processed t w.path else t
      let t2 := if (i + 1) % 5 == 0 then batch_save_progress t1 else t1
      let r := hybridLoop stop rest (i + 1) t2
      ((if w.success then 1 else 0) + r.1, 1 + r.2.1, r.2.2)

/-- _scan_directory_hybrid (zipzap.py lines 298-365): submit the hybrid job
list and consume results, with a final batch save; on a systemic pool
failure, fall back to the sequential path over the full item list
large_zips + small_zips. -/
def _scan_directory_hybrid (large_zips small_zips : List FileAnalysis)
    (t : TrackerState) (stop : Nat → Bool) (poolOk : Bool)
    (intra_zip_workers : Nat) : Nat × Nat × TrackerState :=
  if poolOk then
    let r := hybridLoop stop (hybridJobs large_zips small_zips
      intra_zip_workers) 0 t
    (r.1, r.2.1, batch_save_progress r.2.2)
  else
    _scan_directory_sequential ((large_zips ++ small_zips).map (·.archive))
      t stop

/-- Default of the intra_zip_workers parameter of scan_directory
(zipzap.py line 227). -/
def defaultIntraZipWorkers : Nat := 4

/-- scan_directory (zipzap.py lines 227-270): guard the root directory,
filter out already-processed archives, return (0, 0) when nothing remains,
analyze, partition into large and small exactly as the source does
(small_zips is the analyses not members of large_zips), and run either the
sequential or the hybrid path. -/
def scan_directory (dirExists dirIsDir : Bool) (zip_files : List Archive)
    (t : TrackerState) (stop : Nat → Bool) (use_multiprocessing : Bool)
    (poolOk : Bool) (intra_zip_workers : Nat) : Nat × Nat × TrackerState :=
  if !dirExists then (0, 0, t)
  else if !dirIsDir then (0, 0, t)
  else if zip_files.isEmpty then (0, 0, t)
  else
    let files := zip_files.filter fun z => !(is_processed t z.pathStr)
    if files.isEmpty then (0, 0, t)
    else
      let file_analysis := analyze_zip_files files
      let large_zips := file_analysis.filter isLargeZip
      let small_zips := file_analysis.filter fun f =>
        decide (f ∉ large_zips)
      if !use_multiprocessing || files.length < 2 then
        _scan_directory_sequential (file_analysis.map (·.archive)) t stop
      else
        _scan_directory_hybrid large_zips small_zips t stop poolOk
          intra_zip_workers

/-- Exit code of the command-line path of main (zipzap.py lines 607-629)
for an argument vector whose second element is a directory (not "--gui"):
a usage error (argument count neither 2 nor 4) exits 1; otherwise
scan_directory runs, its counts are printed, and main returns normally, so
the process exits 0 whatever the scan outcome was. -/
def main_cli_exit (argv : List String) : Nat :=
  if argv.length ∉ [2, 4] then 1 else 0

/-! ### Auxiliary definitions used by the verification layer -/

def c1Archive : Archive :=
  ⟨["tmp"], "a", true, [⟨"../../etc/passwd", false⟩], [], true, 100⟩

def c2Bulky : Archive :=
  ⟨["d"], "big", true, List.replicate 25 ⟨"x", false⟩, [], true,
    15 * 1024 * 1024⟩

def c2Simple : Archive :=
  ⟨["d"], "small", true, List.replicate 5 ⟨"y", false⟩, [], true, 1024⟩

def c3Archive : Archive := ⟨["w"], "c3", true, [⟨"f.txt", false⟩], [], true, 9⟩

def c4Archive : Archive := ⟨["w"], "c4", true, [⟨"g.txt", false⟩], [], true, 9⟩

def c5Archive : Archive := ⟨["w"], "c5", true, [⟨"h.txt", false⟩], [], false, 9⟩

def Json.isObj : Json → Bool
  | .obj _ => true
  | _ => false

def c7Archive : Archive := ⟨["w"], "c7", true, [⟨"k.txt", false⟩], [], true, 9⟩

def md5Pack (st : MD5State) : Nat :=
  st.a + 4294967296 * st.b + 18446744073709551616 * st.c +
    79228162514264337593543950336 * st.d

def MD5State.bounded (st : MD5State) : Prop :=
  st.a < 4294967296 ∧ st.b < 4294967296 ∧ st.c < 4294967296 ∧
    st.d < 4294967296

/-! ### Basic lemmas about the embedded operations -/

theorem m32_lt (x : Nat) : m32 x < 4294967296 :=
  Nat.mod_lt _ (by omega)

theorem writeEntries_fst (a : Archive) (l : List Member) :
    (writeEntries a l).1 = l.all fun m => a.writeOk m.filename := by
  induction l with
  | nil => rfl
  | cons m rest ih =>
    by_cases h : a.writeOk m.filename = true
    · simp [writeEntries, h, ih]
    · simp at h
      simp [writeEntries, h]

theorem filter_not_isEmpty_eq_all {α : Type} (p : α → Bool) (l : List α) :
    (l.filter fun x => !p x).isEmpty = l.all p := by
  induction l with
  | nil => rfl
  | cons x rest ih =>
    by_cases h : p x = true
    · simp [h, ih]
    · simp at h
      simp [h]

theorem batch_save_processed (t : TrackerState) :
    (batch_save_progress t).processed_files = t.processed_files := by
  by_cases h : t.pending_saves.isEmpty <;> simp [batch_save_progress, h]

theorem extract_zip_worker_path (a : Archive) (n : Nat) :
    (extract_zip_worker a n).path = a.pathStr := by
  unfold extract_zip_worker
  dsimp only
  repeat' split
  all_goals rfl

theorem extract_zip_worker_success (a : Archive) (n : Nat) :
    (extract_zip_worker a n).success = extractionCompletes a := by
  have hfail := filter_not_isEmpty_eq_all
    (fun m => a.writeOk m.filename) (nonDirMembers a)
  have hseq := writeEntries_fst a (nonDirMembers a)
  unfold extract_zip_worker
  dsimp only
  split_ifs with h1 h2 h3 h4 h5 h6 <;>
    simp_all [extractionCompletes, allWritesOk]

theorem extract_zip_worker_deleted (a : Archive) (n : Nat) :
    (extract_zip_worker a n).deleted = extractionCompletes a := by
  have hfail := filter_not_isEmpty_eq_all
    (fun m => a.writeOk m.filename) (nonDirMembers a)
  have hseq := writeEntries_fst a (nonDirMembers a)
  unfold extract_zip_worker
  dsimp only
  split_ifs <;> simp_all [extractionCompletes, allWritesOk]

theorem extract_zip_ok_iff (a : Archive) (t : TrackerState) :
    (extract_zip a t).ok = true ↔
      is_processed t a.pathStr = true ∨ extractionCompletes a = true := by
  have hseq := writeEntries_fst a (nonDirMembers a)
  unfold extract_zip
  dsimp only
  split_ifs <;> simp_all [extractionCompletes, allWritesOk]

theorem extract_zip_deleted_iff (a : Archive) (t : TrackerState) :
    (extract_zip a t).deleted = true ↔
      is_processed t a.pathStr = false ∧ extractionCompletes a = true := by
  have hseq := writeEntries_fst a (nonDirMembers a)
  unfold extract_zip
  dsimp only
  split_ifs <;> simp_all [extractionCompletes, allWritesOk]

theorem extract_zip_tracker_mem (a : Archive) (t : TrackerState)
    (h : String) (hmem : h ∈ (extract_zip a t).tracker.processed_files) :
    h ∈ t.processed_files ∨
      (extractionCompletes a = true ∧ h = get_file_hash a.pathStr) := by
  have hseq := writeEntries_fst a (nonDirMembers a)
  unfold extract_zip at hmem
  dsimp only at hmem
  split_ifs at hmem <;>
    simp_all [extractionCompletes, allWritesOk, mark_processed]
  tauto

theorem extract_zip_tracker_mono (a : Archive) (t : TrackerState)
    (h : String) (hmem : h ∈ t.processed_files) :
    h ∈ (extract_zip a t).tracker.processed_files := by
  unfold extract_zip
  dsimp only
  split_ifs <;> simp_all [mark_processed]

theorem extract_zip_marks_success (a : Archive) (t : TrackerState)
    (hok : (extract_zip a t).ok = true) :
    get_file_hash a.pathStr ∈ (extract_zip a t).tracker.processed_files := by
  unfold extract_zip at hok ⊢
  dsimp only at hok ⊢
  split_ifs at hok ⊢ <;> simp_all [mark_processed, is_processed]

/-! ### Scheduler loop lemmas -/

theorem seqLoop_stop (stop : Nat → Bool) (files : List Archive) (i : Nat)
    (t : TrackerState) (h : stop i = true) :
    seqLoop stop files i t = (0, 0, t) := by
  cases files with
  | nil => rfl
  | cons f rest => simp [seqLoop, h]

theorem seqLoop_processed_le (stop : Nat → Bool) (files : List Archive)
    (i : Nat) (t : TrackerState) :
    (seqLoop stop files i t).2.1 ≤ files.length := by
  induction files generalizing i t with
  | nil => simp [seqLoop]
  | cons f rest ih =>
    by_cases h : stop i = true
    · simp [seqLoop, h]
    · simp only [Bool.not_eq_true] at h
      simp only [seqLoop, h, Bool.false_eq_true, if_false, List.length_cons]
      have := ih (i + 1)
        (if (i + 1) % 10 == 0 then
          batch_save_progress (extract_zip f t).tracker
        else (extract_zip f t).tracker)
      omega

theorem seqLoop_tracker_mono (stop : Nat → Bool) (files : List Archive)
    (i : Nat) (t : TrackerState) (h : String)
    (hmem : h ∈ t.processed_files) :
    h ∈ (seqLoop stop files i t).2.2.processed_files := by
  induction files generalizing i t with
  | nil => simpa [seqLoop] using hmem
  | cons f rest ih =>
    by_cases hs : stop i = true
    · simpa [seqLoop, hs] using hmem
    · simp only [Bool.not_eq_true] at hs
      simp only [seqLoop, hs, Bool.false_eq_true, if_false]
      apply ih
      have h1 : h ∈ (extract_zip f t).tracker.processed_files :=
        extract_zip_tracker_mono f t h hmem
      by_cases hb : (i + 1) % 10 == 0 <;>
        simp [hb, batch_save_processed, h1]

theorem seqLoop_tracker_mem (stop : Nat → Bool) (files : List Archive)
    (i : Nat) (t : TrackerState) (h : String)
    (hmem : h ∈ (seqLoop stop files i t).2.2.processed_files) :
    h ∈ t.processed_files ∨
      ∃ a ∈ files, extractionCompletes a = true ∧
        h = get_file_hash a.pathStr := by
  induction files generalizing i t with
  | nil => simp [seqLoop] at hmem; exact Or.inl hmem
  | cons f rest ih =>
    by_cases hs : stop i = true
    · simp [seqLoop, hs] at hmem
      exact Or.inl hmem
    · simp only [Bool.not_eq_true] at hs
      simp only [seqLoop, hs, Bool.false_eq_true, if_false] at hmem
      have h2 := ih (i + 1) _ hmem
      have hb : (if (i + 1) % 10 == 0 then
            batch_save_progress (extract_zip f t).tracker
          else (extract_zip f t).tracker).processed_files
          = (extract_zip f t).tracker.processed_files := by
        by_cases hc : (i + 1) % 10 == 0 <;> simp [hc, batch_save_processed]
      rw [hb] at h2
      rcases h2 with h2 | ⟨a, ha, hca, hha⟩
      · rcases extract_zip_tracker_mem f t h h2 with h3 | ⟨hcf, hhf⟩
        · exact Or.inl h3
        · exact Or.inr ⟨f, by simp, hcf, hhf⟩
      · exact Or.inr ⟨a, by simp [ha], hca, hha⟩

theorem seqLoop_complete (stop : Nat → Bool) (files : List Archive)
    (i : Nat) (t : TrackerState) (hstop : ∀ j, stop j = false)
    (a : Archive) (ha : a ∈ files) (hc : extractionCompletes a = true) :
    get_file_hash a.pathStr ∈ (seqLoop stop files i t).2.2.processed_files := by
  induction files generalizing i t with
  | nil => simp at ha
  | cons f rest ih =>
    simp only [seqLoop, hstop i, Bool.false_eq_true, if_false]
    rcases List.mem_cons.mp ha with rfl | hrest
    · have hok : (extract_zip a t).ok = true :=
        (extract_zip_ok_iff a t).mpr (Or.inr hc)
      have h1 : get_file_hash a.pathStr ∈
          (extract_zip a t).tracker.processed_files :=
        extract_zip_marks_success a t hok
      apply seqLoop_tracker_mono
      by_cases hb : (i + 1) % 10 == 0 <;>
        simp [hb, batch_save_processed, h1]
    · exact ih (i + 1) _ hrest
theorem hybridLoop_stop (stop : Nat → Bool) (jobs : List (Archive × Nat))
    (i : Nat) (t : TrackerState) (h : stop i = true) :
    hybridLoop stop jobs i t = (0, 0, t) := by
  cases jobs with
  | nil => rfl
  | cons j rest => simp [hybridLoop, h]

theorem hybridLoop_processed_le (stop : Nat → Bool)
    (jobs : List (Archive × Nat)) (i : Nat) (t : TrackerState) :
    (hybridLoop stop jobs i t).2.1 ≤ jobs.length := by
  induction jobs generalizing i t with
  | nil => simp [hybridLoop]
  | cons j rest ih =>
    by_cases h : stop i = true
    · simp [hybridLoop, h]
    · simp only [Bool.not_eq_true] at h
      simp only [hybridLoop, h, Bool.false_eq_true, if_false,
        List.length_cons]
      have := ih (i + 1)
        (if (i + 1) % 5 == 0 then
          batch_save_progress
            (if (extract_zip_worker j.1 j.2).success then
              mark_processed t (extract_zip_worker j.1 j.2).path
            else t)
        else
          (if (extract_zip_worker j.1 j.2).success then
            mark_processed t (extract_zip_worker j.1 j.2).path
          else t))
      omega

theorem hybridLoop_tracker_mono (stop : Nat → Bool)
    (jobs : List (Archive × Nat)) (i : Nat) (t : TrackerState) (h : String)
    (hmem : h ∈ t.processed_files) :
    h ∈ (hybridLoop stop jobs i t).2.2.processed_files := by
  induction jobs generalizing i t with
  | nil => simpa [hybridLoop] using hmem
  | cons j rest ih =>
    by_cases hs : stop i = true
    · simpa [hybridLoop, hs] using hmem
    · simp only [Bool.not_eq_true] at hs
      simp only [hybridLoop, hs, Bool.false_eq_true, if_false]
      apply ih
      have h1 : h ∈ (if (extract_zip_worker j.1 j.2).success then
          mark_processed t (extract_zip_worker j.1 j.2).path
        else t).processed_files := by
        by_cases hw : (extract_zip_worker j.1 j.2).success = true
        · simp [hw, mark_processed]
          exact Or.inr hmem
        · simp only [Bool.not_eq_true] at hw
          simpa [hw] using hmem
      by_cases hb : (i + 1) % 5 == 0 <;>
        simp [hb, batch_save_processed, h1]

theorem hybridLoop_tracker_mem (stop : Nat → Bool)
    (jobs : List (Archive × Nat)) (i : Nat) (t : TrackerState) (h : String)
    (hmem : h ∈ (hybridLoop stop jobs i t).2.2.processed_files) :
    h ∈ t.processed_files ∨
      ∃ j ∈ jobs, extractionCompletes j.1 = true ∧
        h = get_file_hash j.1.pathStr := by
  induction jobs generalizing i t with
  | nil => simp [hybridLoop] at hmem; exact Or.inl hmem
  | cons j rest ih =>
    by_cases hs : stop i = true
    · simp [hybridLoop, hs] at hmem
      exact Or.inl hmem
    · simp only [Bool.not_eq_true] at hs
      simp only [hybridLoop, hs, Bool.false_eq_true, if_false] at hmem
      have h2 := ih (i + 1) _ hmem
      have hb : ∀ t' : TrackerState,
          (if (i + 1) % 5 == 0 then batch_save_progress t'
            else t').processed_files = t'.processed_files := by
        intro t'
        by_cases hc : (i + 1) % 5 == 0 <;> simp [hc, batch_save_processed]
      rw [hb] at h2
      rcases h2 with h2 | ⟨a, ha, hca, hha⟩
      · by_cases hw : (extract_zip_worker j.1 j.2).success = true
        · simp [hw, mark_processed] at h2
          rcases h2 with h2 | h2
          · refine Or.inr ⟨j, by simp, ?_, ?_⟩
            · rw [← extract_zip_worker_success j.1 j.2]; exact hw
            · rw [h2, extract_zip_worker_path]
          · exact Or.inl h2
        · simp only [Bool.not_eq_true] at hw
          simp [hw] at h2
          exact Or.inl h2
      · exact Or.inr ⟨a, by simp [ha], hca, hha⟩

theorem hybridLoop_complete (stop : Nat → Bool)
    (jobs : List (Archive × Nat)) (i : Nat) (t : TrackerState)
    (hstop : ∀ j, stop j = false) (j : Archive × Nat) (hj : j ∈ jobs)
    (hc : extractionCompletes j.1 = true) :
    get_file_hash j.1.pathStr ∈
      (hybridLoop stop jobs i t).2.2.processed_files := by
  induction jobs generalizing i t with
  | nil => simp at hj
  | cons j0 rest ih =>
    simp only [hybridLoop, hstop i, Bool.false_eq_true, if_false]
    rcases List.mem_cons.mp hj with rfl | hrest
    · have hw : (extract_zip_worker j.1 j.2).success = true := by
        rw [extract_zip_worker_success]; exact hc
      apply hybridLoop_tracker_mono
      have h1 : get_file_hash j.1.pathStr ∈
          (if (extract_zip_worker j.1 j.2).success then
            mark_processed t (extract_zip_worker j.1 j.2).path
          else t).processed_files := by
        simp [hw, mark_processed, extract_zip_worker_path]
      by_cases hb : (i + 1) % 5 == 0 <;>
        simp [hb, batch_save_processed, h1]
    · exact ih (i + 1) _ hrest
theorem analyze_map_archive (files : List Archive) :
    (analyze_zip_files files).map (·.archive) = files := by
  induction files with
  | nil => rfl
  | cons f rest ih =>
    by_cases h : f.openOk = true <;>
      simp only [Bool.not_eq_true] at * <;>
      simp [analyze_zip_files, h] <;>
      simpa [analyze_zip_files] using ih

theorem small_zips_eq_filter_not (analysis : List FileAnalysis) :
    (analysis.filter fun f => decide (f ∉ analysis.filter isLargeZip)) =
      analysis.filter fun f => !isLargeZip f := by
  apply List.filter_congr
  intro f hf
  by_cases h : isLargeZip f = true
  · have hmem : f ∈ analysis.filter isLargeZip :=
      List.mem_filter.mpr ⟨hf, h⟩
    simp [h, hmem]
  · simp only [Bool.not_eq_true] at h
    have hmem : f ∉ analysis.filter isLargeZip := by
      intro hc
      exact absurd (List.mem_filter.mp hc).2 (by simp [h])
    simp [h, hmem]

theorem filter_length_partition {α : Type} (p : α → Bool) (l : List α) :
    (l.filter p).length + (l.filter fun a => !p a).length = l.length := by
  induction l with
  | nil => rfl
  | cons x rest ih =>
    by_cases h : p x = true
    · simp [h, ← ih]; omega
    · simp only [Bool.not_eq_true] at h
      simp [h, ← ih]; omega

theorem mem_hybridJobs_archive (large small : List FileAnalysis) (n : Nat)
    (j : Archive × Nat) (hj : j ∈ hybridJobs large small n) :
    j.1 ∈ (large ++ small).map (·.archive) := by
  simp only [hybridJobs, List.mem_append, List.mem_map] at hj ⊢
  rcases hj with ⟨z, hz, rfl⟩ | ⟨z, hz, rfl⟩
  · exact ⟨z, Or.inl hz, rfl⟩
  · exact ⟨z, Or.inr hz, rfl⟩

theorem mem_partition_archive (files : List Archive) (a : Archive)
    (ha : a ∈ ((analyze_zip_files files).filter isLargeZip ++
      (analyze_zip_files files).filter fun f =>
        decide (f ∉ (analyze_zip_files files).filter isLargeZip)).map
          (·.archive)) :
    a ∈ files := by
  simp only [List.mem_map, List.mem_append] at ha
  obtain ⟨z, hz, rfl⟩ := ha
  have hz2 : z ∈ analyze_zip_files files := by
    rcases hz with hz | hz <;> exact List.mem_of_mem_filter hz
  rw [← analyze_map_archive files]
  exact List.mem_map.mpr ⟨z, hz2, rfl⟩

theorem coverage_partition (analysis : List FileAnalysis)
    (f : FileAnalysis) (hf : f ∈ analysis) :
    f ∈ analysis.filter isLargeZip ∨
      f ∈ analysis.filter fun g =>
        decide (g ∉ analysis.filter isLargeZip) := by
  by_cases h : f ∈ analysis.filter isLargeZip
  · exact Or.inl h
  · refine Or.inr (List.mem_filter.mpr ⟨hf, ?_⟩)
    exact decide_eq_true h

theorem mem_analysis_of_mem_files (files : List Archive) (z : Archive)
    (hz : z ∈ files) :
    ∃ f ∈ analyze_zip_files files, f.archive = z := by
  have := analyze_map_archive files
  rw [← this] at hz
  simpa [List.mem_map] using hz
theorem seq_counts_stop (files : List Archive) (t : TrackerState)
    (stop : Nat → Bool) (h : stop 0 = true) :
    (_scan_directory_sequential files t stop).1 = 0 ∧
      (_scan_directory_sequential files t stop).2.1 = 0 := by
  unfold _scan_directory_sequential
  rw [seqLoop_stop stop files 0 t h]
  simp

theorem hybrid_counts_stop (large small : List FileAnalysis)
    (t : TrackerState) (stop : Nat → Bool) (poolOk : Bool) (intra : Nat)
    (h : stop 0 = true) :
    (_scan_directory_hybrid large small t stop poolOk intra).1 = 0 ∧
      (_scan_directory_hybrid large small t stop poolOk intra).2.1 = 0 := by
  unfold _scan_directory_hybrid
  by_cases hp : poolOk = true
  · simp only [hp, if_true]
    rw [hybridLoop_stop stop _ 0 t h]
    simp
  · simp only [Bool.not_eq_true] at hp
    simp only [hp, Bool.false_eq_true, if_false]
    exact seq_counts_stop _ t stop h

theorem jobs_length (analysis : List FileAnalysis) (intra : Nat) :
    (hybridJobs (analysis.filter isLargeZip)
      (analysis.filter fun f => decide (f ∉ analysis.filter isLargeZip))
      intra).length = analysis.length := by
  simp only [hybridJobs, List.length_append, List.length_map,
    small_zips_eq_filter_not]
  exact filter_length_partition isLargeZip analysis

theorem partition_length (analysis : List FileAnalysis) :
    ((analysis.filter isLargeZip) ++
      (analysis.filter fun f =>
        decide (f ∉ analysis.filter isLargeZip))).length =
      analysis.length := by
  simp only [List.length_append, small_zips_eq_filter_not]
  exact filter_length_partition isLargeZip analysis

theorem seq_processed_le (files : List Archive) (t : TrackerState)
    (stop : Nat → Bool) :
    (_scan_directory_sequential files t stop).2.1 ≤ files.length := by
  unfold _scan_directory_sequential
  exact seqLoop_processed_le stop files 0 t

theorem seq_tracker_mem (files : List Archive) (t : TrackerState)
    (stop : Nat → Bool) (h : String)
    (hmem : h ∈
      (_scan_directory_sequential files t stop).2.2.processed_files) :
    h ∈ t.processed_files ∨
      ∃ a ∈ files, extractionCompletes a = true ∧
        h = get_file_hash a.pathStr := by
  unfold _scan_directory_sequential at hmem
  dsimp only at hmem
  rw [batch_save_processed] at hmem
  exact seqLoop_tracker_mem stop files 0 t h hmem

theorem seq_tracker_mono (files : List Archive) (t : TrackerState)
    (stop : Nat → Bool) (h : String) (hmem : h ∈ t.processed_files) :
    h ∈ (_scan_directory_sequential files t stop).2.2.processed_files := by
  unfold _scan_directory_sequential
  rw [batch_save_processed]
  exact seqLoop_tracker_mono stop files 0 t h hmem

theorem seq_complete (files : List Archive) (t : TrackerState)
    (stop : Nat → Bool) (hstop : ∀ j, stop j = false) (a : Archive)
    (ha : a ∈ files) (hc : extractionCompletes a = true) :
    get_file_hash a.pathStr ∈
      (_scan_directory_sequential files t stop).2.2.processed_files := by
  unfold _scan_directory_sequential
  rw [batch_save_processed]
  exact seqLoop_complete stop files 0 t hstop a ha hc

theorem hybrid_tracker_mem (large small : List FileAnalysis)
    (t : TrackerState) (stop : Nat → Bool) (poolOk : Bool) (intra : Nat)
    (h : String)
    (hmem : h ∈ (_scan_directory_hybrid large small t stop poolOk
      intra).2.2.processed_files) :
    h ∈ t.processed_files ∨
      ∃ a ∈ (large ++ small).map (·.archive),
        extractionCompletes a = true ∧ h = get_file_hash a.pathStr := by
  unfold _scan_directory_hybrid at hmem
  by_cases hp : poolOk = true
  · simp only [hp, if_true] at hmem
    rw [batch_save_processed] at hmem
    rcases hybridLoop_tracker_mem stop _ 0 t h hmem with h2 | ⟨j, hj, hcj, hhj⟩
    · exact Or.inl h2
    · exact Or.inr ⟨j.1, mem_hybridJobs_archive large small intra j hj,
        hcj, hhj⟩
  · simp only [Bool.not_eq_true] at hp
    simp only [hp, Bool.false_eq_true, if_false] at hmem
    exact seq_tracker_mem _ t stop h hmem

theorem hybrid_tracker_mono (large small : List FileAnalysis)
    (t : TrackerState) (stop : Nat → Bool) (poolOk : Bool) (intra : Nat)
    (h : String) (hmem : h ∈ t.processed_files) :
    h ∈ (_scan_directory_hybrid large small t stop poolOk
      intra).2.2.processed_files := by
  unfold _scan_directory_hybrid
  by_cases hp : poolOk = true
  · simp only [hp, if_true]
    rw [batch_save_processed]
    exact hybridLoop_tracker_mono stop _ 0 t h hmem
  · simp only [Bool.not_eq_true] at hp
    simp only [hp, Bool.false_eq_true, if_false]
    exact seq_tracker_mono _ t stop h hmem

theorem hybrid_complete (large small : List FileAnalysis)
    (t : TrackerState) (stop : Nat → Bool) (poolOk : Bool) (intra : Nat)
    (hstop : ∀ j, stop j = false) (f : FileAnalysis)
    (hf : f ∈ large ∨ f ∈ small)
    (hc : extractionCompletes f.archive = true) :
    get_file_hash f.archive.pathStr ∈
      (_scan_directory_hybrid large small t stop poolOk
        intra).2.2.processed_files := by
  unfold _scan_directory_hybrid
  by_cases hp : poolOk = true
  · simp only [hp, if_true]
    rw [batch_save_processed]
    rcases hf with hf | hf
    · exact hybridLoop_complete stop _ 0 t hstop (f.archive, intra)
        (by simp [hybridJobs]; exact Or.inl ⟨f, hf, rfl⟩) hc
    · exact hybridLoop_complete stop _ 0 t hstop (f.archive, 1)
        (by simp [hybridJobs]; exact Or.inr ⟨f, hf, rfl⟩) hc
  · simp only [Bool.not_eq_true] at hp
    simp only [hp, Bool.false_eq_true, if_false]
    apply seq_complete _ t stop hstop f.archive _ hc
    simp only [List.mem_map, List.mem_append]
    exact ⟨f, hf, rfl⟩
theorem hybrid_processed_le (large small : List FileAnalysis)
    (t : TrackerState) (stop : Nat → Bool) (poolOk : Bool) (intra : Nat) :
    (_scan_directory_hybrid large small t stop poolOk intra).2.1 ≤
      (large ++ small).length := by
  unfold _scan_directory_hybrid
  by_cases hp : poolOk = true
  · simp only [hp, if_true]
    refine le_trans (hybridLoop_processed_le stop _ 0 t) ?_
    simp [hybridJobs]
  · simp only [Bool.not_eq_true] at hp
    simp only [hp, Bool.false_eq_true, if_false]
    refine le_trans (seq_processed_le _ t stop) ?_
    simp

theorem scan_counts_stop (dE dD : Bool) (zips : List Archive)
    (t : TrackerState) (stop : Nat → Bool) (ump poolOk : Bool)
    (intra : Nat) (hstop : stop 0 = true) :
    (scan_directory dE dD zips t stop ump poolOk intra).1 = 0 ∧
      (scan_directory dE dD zips t stop ump poolOk intra).2.1 = 0 := by
  unfold scan_directory
  dsimp only
  split_ifs
  · simp
  · simp
  · simp
  · simp
  · exact seq_counts_stop _ t stop hstop
  · exact hybrid_counts_stop _ _ t stop poolOk intra hstop

theorem scan_processed_le (dE dD : Bool) (zips : List Archive)
    (t : TrackerState) (stop : Nat → Bool) (ump poolOk : Bool)
    (intra : Nat) :
    (scan_directory dE dD zips t stop ump poolOk intra).2.1 ≤
      zips.length := by
  unfold scan_directory
  dsimp only
  split_ifs
  · simp
  · simp
  · simp
  · simp
  · refine le_trans (seq_processed_le _ t stop) ?_
    refine le_trans ?_
      (List.length_filter_le (fun z => !(is_processed t z.pathStr)) zips)
    simp [analyze_zip_files]
  · refine le_trans (hybrid_processed_le _ _ t stop poolOk intra) ?_
    rw [partition_length]
    refine le_trans ?_
      (List.length_filter_le (fun z => !(is_processed t z.pathStr)) zips)
    simp [analyze_zip_files]

theorem scan_tracker_mem (dE dD : Bool) (zips : List Archive)
    (t : TrackerState) (stop : Nat → Bool) (ump poolOk : Bool)
    (intra : Nat) (h : String)
    (hmem : h ∈ (scan_directory dE dD zips t stop ump poolOk
      intra).2.2.processed_files) :
    h ∈ t.processed_files ∨
      ∃ a ∈ zips, extractionCompletes a = true ∧
        h = get_file_hash a.pathStr := by
  unfold scan_directory at hmem
  dsimp only at hmem
  split_ifs at hmem
  · exact Or.inl hmem
  · exact Or.inl hmem
  · exact Or.inl hmem
  · exact Or.inl hmem
  · rcases seq_tracker_mem _ t stop h hmem with h2 | ⟨a, ha, hca, hha⟩
    · exact Or.inl h2
    · rw [analyze_map_archive] at ha
      exact Or.inr ⟨a, List.mem_of_mem_filter ha, hca, hha⟩
  · rcases hybrid_tracker_mem _ _ t stop poolOk intra h hmem with
      h2 | ⟨a, ha, hca, hha⟩
    · exact Or.inl h2
    · exact Or.inr ⟨a,
        List.mem_of_mem_filter (mem_partition_archive _ a ha), hca, hha⟩

theorem scan_tracker_mono (dE dD : Bool) (zips : List Archive)
    (t : TrackerState) (stop : Nat → Bool) (ump poolOk : Bool)
    (intra : Nat) (h : String) (hmem : h ∈ t.processed_files) :
    h ∈ (scan_directory dE dD zips t stop ump poolOk
      intra).2.2.processed_files := by
  unfold scan_directory
  dsimp only
  split_ifs
  · exact hmem
  · exact hmem
  · exact hmem
  · exact hmem
  · exact seq_tracker_mono _ t stop h hmem
  · exact hybrid_tracker_mono _ _ t stop poolOk intra h hmem

theorem scan_all_processed (dE dD : Bool) (zips : List Archive)
    (t : TrackerState) (stop : Nat → Bool) (ump poolOk : Bool)
    (intra : Nat)
    (hall : ∀ z ∈ zips, is_processed t z.pathStr = true) :
    scan_directory dE dD zips t stop ump poolOk intra = (0, 0, t) := by
  have hfilter : zips.filter (fun z => !(is_processed t z.pathStr)) = [] := by
    rw [List.filter_eq_nil_iff]
    intro z hz
    simp [hall z hz]
  unfold scan_directory
  dsimp only
  rw [hfilter]
  split_ifs <;> simp_all

theorem scan_complete (dE dD : Bool) (zips : List Archive)
    (t : TrackerState) (stop : Nat → Bool) (ump poolOk : Bool)
    (intra : Nat) (hstop : ∀ j, stop j = false) (hdE : dE = true)
    (hdD : dD = true) (hall : ∀ z ∈ zips, extractionCompletes z = true)
    (z : Archive) (hz : z ∈ zips) :
    is_processed (scan_directory dE dD zips t stop ump poolOk
      intra).2.2 z.pathStr = true := by
  subst hdE hdD
  by_cases hzp : is_processed t z.pathStr = true
  · have hm : get_file_hash z.pathStr ∈ t.processed_files := by
      simpa [is_processed] using hzp
    have := scan_tracker_mono true true zips t stop ump poolOk intra _ hm
    simpa [is_processed] using this
  · simp only [Bool.not_eq_true] at hzp
    have hzf : z ∈ zips.filter fun w => !(is_processed t w.pathStr) :=
      List.mem_filter.mpr ⟨hz, by simp [hzp]⟩
    have hzne : zips.isEmpty = false := by
      cases zips with
      | nil => simp at hz
      | cons _ _ => rfl
    have hfne :
        (zips.filter fun w => !(is_processed t w.pathStr)).isEmpty
          = false := by
      by_cases h : (zips.filter fun w =>
          !(is_processed t w.pathStr)).isEmpty = true
      · rw [List.isEmpty_iff] at h
        rw [h] at hzf
        simp at hzf
      · simpa using h
    rw [is_processed, decide_eq_true_iff]
    unfold scan_directory
    dsimp only
    simp only [Bool.not_true, Bool.false_eq_true, if_false, hzne, hfne]
    split_ifs with h5
    · apply seq_complete _ t stop hstop z _ (hall z hz)
      rw [analyze_map_archive]
      exact hzf
    · obtain ⟨f, hf, harc⟩ := mem_analysis_of_mem_files _ z hzf
      have hcov := coverage_partition _ f hf
      have hres := hybrid_complete _ _ t stop poolOk intra hstop f hcov
        (by rw [harc]; exact hall z hz)
      rw [harc] at hres
      exact hres

set_option maxRecDepth 8000 in
/-- C1: extract_zip computes extract_dir / member.filename with no
containment check: an entry named ../../etc/passwd is written to a path
resolving outside the extraction directory and the job still returns
Success, contradicting the claim that such entries are rejected as
Failure with no file written outside. -/
theorem C1_traversal_writes_outside :
    (extract_zip c1Archive ⟨[], []⟩).ok = true ∧
    (extract_zip c1Archive ⟨[], []⟩).written =
      [["tmp", "a", "..", "..", "etc", "passwd"]] ∧
    entryTarget c1Archive "../../etc/passwd" =
      ["tmp", "a", "..", "..", "etc", "passwd"] ∧
    resolvePath (entryTarget c1Archive "../../etc/passwd") =
      ["etc", "passwd"] ∧
    isWithin c1Archive.extractDir
      (entryTarget c1Archive "../../etc/passwd") = false ∧
    (extract_single_file_from_zip c1Archive "../../etc/passwd").1 = true := by
  decide

/-- C2: an analyzed profile is classified bulky (member of large_zips) iff
its non-directory entry count exceeds 20 and its size exceeds 10 MiB;
bulky jobs are dispatched to extract_zip_worker with the configured
intra-zip stream count (default 4, hence more than 1) and simple jobs with
exactly 1. -/
theorem C2_classification_dispatch (file_analysis : List FileAnalysis)
    (intra_zip_workers : Nat) (f : FileAnalysis) (hf : f ∈ file_analysis) :
    (f ∈ file_analysis.filter isLargeZip ↔
      20 < f.file_count ∧ 10 * 1024 * 1024 < f.size_bytes) ∧
    (20 < f.file_count ∧ 10 * 1024 * 1024 < f.size_bytes →
      (f.archive, intra_zip_workers) ∈
        hybridJobs (file_analysis.filter isLargeZip)
          (file_analysis.filter fun g =>
            decide (g ∉ file_analysis.filter isLargeZip))
          intra_zip_workers) ∧
    (¬(20 < f.file_count ∧ 10 * 1024 * 1024 < f.size_bytes) →
      (f.archive, 1) ∈
        hybridJobs (file_analysis.filter isLargeZip)
          (file_analysis.filter fun g =>
            decide (g ∉ file_analysis.filter isLargeZip))
          intra_zip_workers) ∧
    defaultIntraZipWorkers = 4 ∧ 1 < defaultIntraZipWorkers := by
  have hiff : f ∈ file_analysis.filter isLargeZip ↔
      20 < f.file_count ∧ 10 * 1024 * 1024 < f.size_bytes := by
    rw [List.mem_filter]
    simp [isLargeZip, hf]
  refine ⟨hiff, ?_, ?_, rfl, by decide⟩
  · intro hb
    have hl : f ∈ file_analysis.filter isLargeZip := hiff.mpr hb
    simp only [hybridJobs, List.mem_append, List.mem_map]
    exact Or.inl ⟨f, hl, rfl⟩
  · intro hnb
    have hnl : f ∉ file_analysis.filter isLargeZip := fun hc =>
      hnb (hiff.mp hc)
    simp only [hybridJobs, List.mem_append, List.mem_map]
    exact Or.inr ⟨f, List.mem_filter.mpr ⟨hf, decide_eq_true hnl⟩, rfl⟩

theorem C2_witness :
    ((⟨c2Bulky, 25, 15728640⟩ : FileAnalysis) ∈
      analyze_zip_files [c2Bulky, c2Simple]) ∧
    ((⟨c2Bulky, 25, 15728640⟩ : FileAnalysis) ∈
        (analyze_zip_files [c2Bulky, c2Simple]).filter isLargeZip ↔
      20 < 25 ∧ 10 * 1024 * 1024 < 15728640) ∧
    ((⟨c2Simple, 5, 1024⟩ : FileAnalysis) ∈
      analyze_zip_files [c2Bulky, c2Simple]) ∧
    ((⟨c2Simple, 5, 1024⟩ : FileAnalysis) ∈
        (analyze_zip_files [c2Bulky, c2Simple]).filter isLargeZip ↔
      20 < 5 ∧ 10 * 1024 * 1024 < 1024) :=
  ⟨by decide,
   (C2_classification_dispatch (analyze_zip_files [c2Bulky, c2Simple]) 4
     ⟨c2Bulky, 25, 15728640⟩ (by decide)).1,
   by decide,
   (C2_classification_dispatch (analyze_zip_files [c2Bulky, c2Simple]) 4
     ⟨c2Simple, 5, 1024⟩ (by decide)).1⟩
/-- C3: any identity hash in the ledger's processed set after a scheduler
run was either there before the run or is the hash of an input archive
whose extraction job actually completed with Success; a Failure outcome
never adds an entry. -/
theorem C3_ledger_marks_only_success (dE dD : Bool) (zips : List Archive)
    (t : TrackerState) (stop : Nat → Bool) (ump poolOk : Bool)
    (intra : Nat) (h : String)
    (hmem : h ∈ (scan_directory dE dD zips t stop ump poolOk
      intra).2.2.processed_files) :
    h ∈ t.processed_files ∨
      ∃ a ∈ zips, extractionCompletes a = true ∧
        h = get_file_hash a.pathStr :=
  scan_tracker_mem dE dD zips t stop ump poolOk intra h hmem

set_option maxRecDepth 8000 in
theorem C3_witness :
    (get_file_hash c3Archive.pathStr ∈
      (scan_directory true true [c3Archive] ⟨[], []⟩ (fun _ => false)
        true true 4).2.2.processed_files) ∧
    (get_file_hash c3Archive.pathStr ∈
        TrackerState.processed_files ⟨[], []⟩ ∨
      ∃ a ∈ [c3Archive], extractionCompletes a = true ∧
        get_file_hash c3Archive.pathStr = get_file_hash a.pathStr) :=
  ⟨by decide,
   C3_ledger_marks_only_success true true [c3Archive] ⟨[], []⟩
     (fun _ => false) true true 4 _ (by decide)⟩

/-- C4: the cancellation flag is read before dispatching each sequential
item and before consuming each pooled result; a flag already set at the
first check point yields success and processed counts both 0 on every
path, and the processed count never exceeds the number of input
archives. -/
theorem C4_cancellation (dE dD : Bool) (zips : List Archive)
    (t : TrackerState) (stop : Nat → Bool) (ump poolOk : Bool)
    (intra : Nat) :
    (stop 0 = true →
      (scan_directory dE dD zips t stop ump poolOk intra).1 = 0 ∧
        (scan_directory dE dD zips t stop ump poolOk intra).2.1 = 0) ∧
    (scan_directory dE dD zips t stop ump poolOk intra).2.1 ≤
      zips.length :=
  ⟨fun h => scan_counts_stop dE dD zips t stop ump poolOk intra h,
   scan_processed_le dE dD zips t stop ump poolOk intra⟩

set_option maxRecDepth 8000 in
theorem C4_witness :
    ((fun _ : Nat => true) 0 = true) ∧
    ((scan_directory true true [c4Archive] ⟨[], []⟩ (fun _ => true)
        true true 4).1 = 0 ∧
      (scan_directory true true [c4Archive] ⟨[], []⟩ (fun _ => true)
        true true 4).2.1 = 0) ∧
    (scan_directory true true [c4Archive] ⟨[], []⟩ (fun _ => true)
      true true 4).2.1 ≤ 1 :=
  ⟨rfl,
   (C4_cancellation true true [c4Archive] ⟨[], []⟩ (fun _ => true)
     true true 4).1 rfl,
   (C4_cancellation true true [c4Archive] ⟨[], []⟩ (fun _ => true)
     true true 4).2⟩

/-- C5: both extractors return Success only when the source archive was
deleted after all entries were written, and a deletion failure after a
complete extraction yields Failure, never Success. -/
theorem C5_success_requires_deletion (a : Archive) (n : Nat)
    (t : TrackerState) (hskip : is_processed t a.pathStr = false) :
    ((extract_zip_worker a n).success = true →
      (extract_zip_worker a n).deleted = true ∧ a.unlinkOk = true ∧
        allWritesOk a = true) ∧
    (a.openOk = true → allWritesOk a = true → a.unlinkOk = false →
      (extract_zip_worker a n).success = false) ∧
    ((extract_zip a t).ok = true →
      (extract_zip a t).deleted = true ∧ a.unlinkOk = true ∧
        allWritesOk a = true) ∧
    (a.openOk = true → allWritesOk a = true → a.unlinkOk = false →
      (extract_zip a t).ok = false) := by
  refine ⟨?_, ?_, ?_, ?_⟩
  · intro h
    rw [extract_zip_worker_success] at h
    have hc := h
    simp only [extractionCompletes, Bool.and_eq_true] at hc
    exact ⟨by rw [extract_zip_worker_deleted]; exact h, hc.2, hc.1.2⟩
  · intro ho hw hu
    rw [extract_zip_worker_success]
    simp [extractionCompletes, ho, hw, hu]
  · intro h
    have hc : extractionCompletes a = true := by
      rcases (extract_zip_ok_iff a t).mp h with hpr | hc
      · rw [hskip] at hpr
        exact absurd hpr (by simp)
      · exact hc
    have hd : (extract_zip a t).deleted = true :=
      (extract_zip_deleted_iff a t).mpr ⟨hskip, hc⟩
    have hc2 := hc
    simp only [extractionCompletes, Bool.and_eq_true] at hc2
    exact ⟨hd, hc2.2, hc2.1.2⟩
  · intro ho hw hu
    cases hok : (extract_zip a t).ok
    · rfl
    · rcases (extract_zip_ok_iff a t).mp hok with hpr | hc
      · rw [hskip] at hpr
        exact absurd hpr (by simp)
      · simp [extractionCompletes, ho, hw, hu] at hc

set_option maxRecDepth 8000 in
theorem C5_witness :
    (is_processed ⟨[], []⟩ c5Archive.pathStr = false) ∧
    (c5Archive.openOk = true → allWritesOk c5Archive = true →
      c5Archive.unlinkOk = false →
      (extract_zip_worker c5Archive 4).success = false) ∧
    ((extract_zip_worker c5Archive 4).success = false) ∧
    ((extract_zip c5Archive ⟨[], []⟩).ok = false) :=
  ⟨by decide,
   (C5_success_requires_deletion c5Archive 4 ⟨[], []⟩ (by decide)).2.1,
   (C5_success_requires_deletion c5Archive 4 ⟨[], []⟩ (by decide)).2.1
     rfl (by decide) rfl,
   (C5_success_requires_deletion c5Archive 4 ⟨[], []⟩ (by decide)).2.2.2
     rfl (by decide) rfl⟩
/-- C6 counterexample: a ledger file whose content is valid JSON but not an
object (here the JSON array []) makes load_progress raise AttributeError
to the caller instead of resetting to the empty set, refuting the claim
that arbitrarily malformed content never raises. -/
theorem C6_load_raises_on_json_array :
    load_progress (.parsed (.arr [])) = .error .attributeError := rfl

/-- C6 amended: load_progress initializes the processed set to empty and
does not raise for a missing file or content that fails JSON parsing; but
an I/O error reading an existing file propagates, content parsing to a
non-object raises AttributeError, and a processed_files value that is not
an iterable of hashable values raises TypeError.  A well-formed object
with a list of hashable entries loads as that set. -/
theorem C6_load_resilience :
    (load_progress .missing = .ok []) ∧
    (load_progress .unparseable = .ok []) ∧
    (load_progress .unreadable = .error .osError) ∧
    (∀ v : Json, v.isObj = false →
      load_progress (.parsed v) = .error .attributeError) ∧
    (∀ fields xs, jsonGet fields "processed_files" (.arr []) = .arr xs →
      xs.all Json.hashable = true →
      load_progress (.parsed (.obj fields)) = .ok xs) := by
  refine ⟨rfl, rfl, rfl, ?_, ?_⟩
  · intro v hv
    cases v <;> first | rfl | simp [Json.isObj] at hv
  · intro fields xs hget hall
    simp [load_progress, hget, hall]

theorem C6_witness :
    (Json.isObj (.num 3) = false) ∧
    (load_progress (.parsed (.num 3)) = .error .attributeError) ∧
    (jsonGet [("processed_files", .arr [.str "abc"])] "processed_files"
        (.arr []) = .arr [.str "abc"]) ∧
    (load_progress (.parsed (.obj [("processed_files",
        .arr [.str "abc"])])) = .ok [.str "abc"]) :=
  ⟨rfl,
   C6_load_resilience.2.2.2.1 (.num 3) rfl,
   rfl,
   C6_load_resilience.2.2.2.2 [("processed_files", .arr [.str "abc"])]
     [.str "abc"] rfl rfl⟩

/-- C7: the scheduler filters out every archive whose identity hash is in
the ledger and returns (0, 0) with the tracker untouched when nothing
remains; after a fully successful run every input archive is recorded in
the ledger, so an immediate second run over the same list returns (0, 0)
and performs no further extraction. -/
theorem C7_filter_and_idempotence (dE dD : Bool) (zips : List Archive)
    (t : TrackerState) (stop : Nat → Bool) (ump poolOk : Bool)
    (intra : Nat) :
    ((∀ z ∈ zips, is_processed t z.pathStr = true) →
      scan_directory dE dD zips t stop ump poolOk intra = (0, 0, t)) ∧
    ((∀ j, stop j = false) → dE = true → dD = true →
      (∀ z ∈ zips, extractionCompletes z = true) →
      (∀ z ∈ zips, is_processed
        (scan_directory dE dD zips t stop ump poolOk intra).2.2
          z.pathStr = true) ∧
      scan_directory dE dD zips
        (scan_directory dE dD zips t stop ump poolOk intra).2.2 stop ump
        poolOk intra =
        (0, 0, (scan_directory dE dD zips t stop ump poolOk intra).2.2)) := by
  refine ⟨scan_all_processed dE dD zips t stop ump poolOk intra, ?_⟩
  intro hstop hdE hdD hall
  have hmarked : ∀ z ∈ zips, is_processed
      (scan_directory dE dD zips t stop ump poolOk intra).2.2
        z.pathStr = true :=
    fun z hz => scan_complete dE dD zips t stop ump poolOk intra hstop
      hdE hdD hall z hz
  exact ⟨hmarked,
    scan_all_processed dE dD zips _ stop ump poolOk intra hmarked⟩

set_option maxRecDepth 8000 in
theorem C7_witness :
    ((∀ j : Nat, (fun _ : Nat => false) j = false) ∧
      (∀ z ∈ [c7Archive], extractionCompletes z = true)) ∧
    (∀ z ∈ [c7Archive], is_processed
      (scan_directory true true [c7Archive] ⟨[], []⟩ (fun _ => false)
        true true 4).2.2 z.pathStr = true) ∧
    scan_directory true true [c7Archive]
      (scan_directory true true [c7Archive] ⟨[], []⟩ (fun _ => false)
        true true 4).2.2 (fun _ => false) true true 4 =
      (0, 0, (scan_directory true true [c7Archive] ⟨[], []⟩
        (fun _ => false) true true 4).2.2) :=
  ⟨⟨fun _ => rfl, by decide⟩,
   (C7_filter_and_idempotence true true [c7Archive] ⟨[], []⟩
     (fun _ => false) true true 4).2 (fun _ => rfl) rfl rfl (by decide)⟩

/-- C8: with a systemic pool-level failure the hybrid scheduler returns
exactly the result of the sequential path over the full item list
large_zips + small_zips instead of aborting. -/
theorem C8_pool_failure_falls_back (large_zips small_zips :
    List FileAnalysis) (t : TrackerState) (stop : Nat → Bool)
    (intra : Nat) :
    _scan_directory_hybrid large_zips small_zips t stop false intra =
      _scan_directory_sequential
        ((large_zips ++ small_zips).map (·.archive)) t stop := by
  simp [_scan_directory_hybrid]

/-- C9 counterexample: for a CLI invocation on a non-existent root
directory, scan_directory returns (0, 0) and main exits with code 0, not
a non-zero exit indication as the claim states. -/
theorem C9_exit_code_zero_on_missing_root :
    main_cli_exit ["zipzap.py", "/missing"] = 0 ∧
    scan_directory false true
      [⟨["missing"], "a", true, [⟨"f", false⟩], [], true, 10⟩]
      ⟨[], []⟩ (fun _ => false) true true 4 =
      (0, 0, ⟨[], []⟩) := by
  exact ⟨rfl, rfl⟩

/-- C9 amended: a missing or non-directory root makes scan_directory
return (0, 0) immediately with the tracker untouched and no processing
performed, but the CLI caller still exits 0 for any well-formed argument
vector; only usage errors exit non-zero. -/
theorem C9_missing_root_returns_zero (dE dD : Bool)
    (zips : List Archive) (t : TrackerState) (stop : Nat → Bool)
    (ump poolOk : Bool) (intra : Nat)
    (h : dE = false ∨ dD = false) :
    scan_directory dE dD zips t stop ump poolOk intra = (0, 0, t) ∧
    (∀ argv : List String, argv.length = 2 ∨ argv.length = 4 →
      main_cli_exit argv = 0) := by
  constructor
  · rcases h with h | h
    · subst h
      simp [scan_directory]
    · subst h
      cases dE <;> simp [scan_directory]
  · intro argv ha
    rcases ha with ha | ha <;> simp [main_cli_exit, ha]

theorem C9_witness :
    ((false = false ∨ true = false) ∧
      scan_directory false true [] ⟨["x"], []⟩ (fun _ => false) true
        true 4 = (0, 0, ⟨["x"], []⟩)) ∧
    main_cli_exit ["zipzap.py", "/missing"] = 0 :=
  ⟨⟨Or.inl rfl,
    (C9_missing_root_returns_zero false true [] ⟨["x"], []⟩
      (fun _ => false) true true 4 (Or.inl rfl)).1⟩,
   (C9_missing_root_returns_zero false true [] ⟨["x"], []⟩
     (fun _ => false) true true 4 (Or.inl rfl)).2
     ["zipzap.py", "/missing"] (Or.inl rfl)⟩
theorem md5Compress_bounded (st : MD5State) (block : List Nat) :
    (md5Compress st block).bounded := by
  refine ⟨?_, ?_, ?_, ?_⟩ <;> exact m32_lt _

theorem md5Bytes_bounded (msg : List Nat) : (md5Bytes msg).bounded := by
  have hfold : ∀ (blocks : List (List Nat)) (st : MD5State), st.bounded →
      (blocks.foldl md5Compress st).bounded := by
    intro blocks
    induction blocks with
    | nil => intro st h; exact h
    | cons b bs ih => intro st _; exact ih _ (md5Compress_bounded st b)
  exact hfold _ _ (by constructor <;> simp)

theorem md5Pack_lt (st : MD5State) (h : st.bounded) :
    md5Pack st < 340282366920938463463374607431768211456 := by
  obtain ⟨h1, h2, h3, h4⟩ := h
  unfold md5Pack
  omega

theorem md5Pack_inj (st1 st2 : MD5State) (h1 : st1.bounded)
    (h2 : st2.bounded) (he : md5Pack st1 = md5Pack st2) : st1 = st2 := by
  obtain ⟨h1a, h1b, h1c, h1d⟩ := h1
  obtain ⟨h2a, h2b, h2c, h2d⟩ := h2
  cases st1
  cases st2
  simp only [md5Pack] at he
  simp_all only [MD5State.mk.injEq]
  refine ⟨?_, ?_, ?_, ?_⟩ <;> omega

theorem md5Hex_collision : ∃ p q : String, p ≠ q ∧ md5Hex p = md5Hex q := by
  obtain ⟨i, j, hij, hf⟩ :=
    Fintype.exists_ne_map_eq_of_card_lt
      (fun i : Fin 340282366920938463463374607431768211457 =>
        (⟨md5Pack (md5Bytes (utf8Bytes
            (String.mk (List.replicate i.1 'a')))),
          md5Pack_lt _ (md5Bytes_bounded _)⟩ :
          Fin 340282366920938463463374607431768211456))
      (by simp only [Fintype.card_fin]; omega)
  refine ⟨String.mk (List.replicate i.1 'a'),
    String.mk (List.replicate j.1 'a'), ?_, ?_⟩
  · intro he
    apply hij
    have hlen := congrArg (fun s : String => s.data.length) he
    simp only [List.length_replicate] at hlen
    exact Fin.ext hlen
  · have hpack := congrArg Fin.val hf
    simp only at hpack
    have hst := md5Pack_inj _ _ (md5Bytes_bounded _) (md5Bytes_bounded _)
      hpack
    simp [md5Hex, hst]
/-- C10 counterexample: the identity hash is MD5 of the path string, and
MD5 maps infinitely many strings into finitely many digests, so two
distinct path strings share a hash; marking one changes is_processed of
the other, refuting the claim that is_processed(q) is unchanged for every
q whose string merely differs from p. -/
theorem C10_distinct_strings_can_collide :
    ¬ ∀ (t : TrackerState) (p q : String), q ≠ p →
        is_processed (mark_processed t p) q = is_processed t q := by
  intro hclaim
  obtain ⟨p, q, hpq, hhash⟩ := md5Hex_collision
  have h := hclaim ⟨[], []⟩ p q (fun e => hpq e.symm)
  simp only [is_processed, mark_processed, get_file_hash] at h
  have hmem : md5Hex q ∈ [md5Hex p] := by
    rw [← hhash]
    exact List.mem_singleton_self _
  simp [hmem] at h
  exact h hhash.symm

/-- C10 amended: the identity hash is a deterministic function of the path
string alone; after mark_processed(p) the path p reports processed, every
path whose identity hash differs from p's is unaffected (distinct strings
with colliding MD5 digests are identified), and two trackers over the same
persisted set answer identically. -/
theorem C10_hash_identity (t t1 t2 : TrackerState) (p q : String) :
    (is_processed (mark_processed t p) p = true) ∧
    (get_file_hash q ≠ get_file_hash p →
      is_processed (mark_processed t p) q = is_processed t q) ∧
    (t1.processed_files = t2.processed_files →
      is_processed t1 p = is_processed t2 p) := by
  refine ⟨?_, ?_, ?_⟩
  · simp [is_processed, mark_processed]
  · intro hne
    simp [is_processed, mark_processed, hne]
  · intro he
    simp [is_processed, he]

set_option maxRecDepth 8000 in
theorem C10_witness :
    (get_file_hash "/w/one.zip" ≠ get_file_hash "/w/two.zip") ∧
    is_processed (mark_processed ⟨[], []⟩ "/w/two.zip") "/w/one.zip" =
      is_processed ⟨[], []⟩ "/w/one.zip" ∧
    is_processed (mark_processed ⟨[], []⟩ "/w/two.zip") "/w/two.zip" =
      true ∧
    is_processed ⟨["h"], []⟩ "/w/one.zip" =
      is_processed ⟨["h"], ["x"]⟩ "/w/one.zip" :=
  ⟨by decide,
   (C10_hash_identity ⟨[], []⟩ ⟨["h"], []⟩ ⟨["h"], ["x"]⟩ "/w/two.zip"
     "/w/one.zip").2.1 (by decide),
   (C10_hash_identity ⟨[], []⟩ ⟨["h"], []⟩ ⟨["h"], ["x"]⟩ "/w/two.zip"
     "/w/one.zip").1,
   (C10_hash_identity ⟨[], []⟩ ⟨["h"], []⟩ ⟨["h"], ["x"]⟩ "/w/two.zip"
     "/w/one.zip").2.2 rfl⟩

end ZipZap
